import Mathlib

/-
Verification development for the ts-threads store core.

Shallow embedding of:
  * `Store` (aggregate root): `reduce`, `registerSchema`, `registerSchemas`,
    `getCollection`, `threadID` (src/unnamed/part_000);
  * `AddrBook`: constructor, `put`, `logs` (src/unnamed/part_002).

Modelling conventions:
  * Datastore keys are modelled as lists of path components (`KeyL`), so
    `new Key('store').child(new Key('threadid'))` becomes `["store", "threadid"]`
    and `query({ prefix })` becomes a component-prefix filter.
  * A datastore is an association list from keys to values; `put` overwrites,
    `delete` removes, `get` returns an `Option`.  CBOR `encode`/`decode` is a
    bijection on the values the store writes, so stored bytes are identified
    with their decoded values.  An entity-state value decodes to `Option T`
    (the codec's `state` field may be `undefined`), so the entity datastore
    maps keys to `Option T`.
  * Batches accumulate operations and are applied only on `commit`, exactly as
    in `Store.reduce` and `AddrBook.put`; reads during a loop go to the
    datastore, not to the pending batch.
  * Thrown JS errors become `Except` errors; a throw before `batch.commit()`
    leaves the datastore unchanged.
-/

/-! ### Generic association-list datastore -/

/-- Hierarchical datastore key, as its list of path components. -/
abbrev KeyL := List String

/-- Association-list datastore mapping keys `κ` to values `α`
(models `interface-datastore`'s `MemoryDatastore`). -/
abbrev DS (κ α : Type) := List (κ × α)

/-- `datastore.get`: the value stored at `k`, if any. -/
def dsGet {κ α : Type} [DecidableEq κ] (ds : DS κ α) (k : κ) : Option α :=
  (ds.find? (fun p => decide (p.1 = k))).map (fun p => p.2)

/-- `datastore.put`: overwrite the value at `k`. -/
def dsPut {κ α : Type} [DecidableEq κ] (ds : DS κ α) (k : κ) (v : α) : DS κ α :=
  ds.filter (fun p => decide (¬ p.1 = k)) ++ [(k, v)]

/-- `datastore.delete`: remove the entry at `k`. -/
def dsDel {κ α : Type} [DecidableEq κ] (ds : DS κ α) (k : κ) : DS κ α :=
  ds.filter (fun p => decide (¬ p.1 = k))

/-- `datastore.has`. -/
def dsHas {κ α : Type} [DecidableEq κ] (ds : DS κ α) (k : κ) : Bool :=
  (dsGet ds k).isSome

/-- `datastore.query({ prefix })`: all entries whose key extends `p`. -/
def dsQuery {α : Type} (ds : DS KeyL α) (p : KeyL) : DS KeyL α :=
  ds.filter (fun q => p.isPrefixOf q.1)

/-- `Key.name()`: the last path component of a key. -/
def keyName (k : KeyL) : String :=
  k.getLast?.getD ""

/-- One pending mutation of a datastore batch. -/
inductive BatchOp (κ α : Type) : Type
  | put (k : κ) (v : α)
  | del (k : κ)
deriving DecidableEq

/-- The key an operation touches. -/
def opKey {κ α : Type} : BatchOp κ α → κ
  | .put k _ => k
  | .del k => k

/-- Apply one batch operation to the datastore. -/
def applyOp {κ α : Type} [DecidableEq κ] (ds : DS κ α) : BatchOp κ α → DS κ α
  | .put k v => dsPut ds k v
  | .del k => dsDel ds k

/-- `batch.commit()`: apply the accumulated operations in order. -/
def commitBatch {κ α : Type} [DecidableEq κ] (ds : DS κ α) (ops : List (BatchOp κ α)) : DS κ α :=
  ops.foldl applyOp ds

/-- The effect of one batch operation on the value stored at a fixed key `k`. -/
def stepOp {κ α : Type} [DecidableEq κ] (k : κ) (acc : Option α) : BatchOp κ α → Option α
  | .put k' v => if k' = k then some v else acc
  | .del k' => if k' = k then none else acc

deriving instance DecidableEq for Except

/-! ### Store: events, codec and `reduce` (src/unnamed/part_000, lines 129-163) -/

/-- `Action.Type` tag of a normalized `ReduceAction`.  The reduce switch has a
`default` branch for tags it does not recognise, modelled by `unknown`. -/
inductive ActionType : Type
  | create
  | save
  | delete
  | unknown
deriving DecidableEq

/-- A codec event: collection name, entity id and a codec-specific payload. -/
structure StoreEvent (π : Type) : Type where
  collection : String
  entityID : String
  payload : π
deriving DecidableEq

/-- The event codec's `reduce(oldState, event)`, returning the new state
(`none` for deletions) and the normalized action's type tag. -/
structure EventCodec (T π : Type) : Type where
  reduce : Option T → StoreEvent π → Option T × ActionType

/-- Errors thrown by `Store` methods. -/
inductive StoreErr : Type
  | entityAlreadyExists
  | unknownOperation
  | alreadyRegistered
deriving DecidableEq

/-- `CollectionKey.child(new Key(event.collection)).child(new Key(event.entityID))`,
i.e. `/collection/<name>/<entityID>`. -/
def eventKey {π : Type} (e : StoreEvent π) : KeyL :=
  ["collection", e.collection, e.entityID]

/-- The decoded entity state stored at `k` (`undefined` both when the key is
absent and when the stored bytes decode to `undefined`). -/
def storedState {T : Type} (ds : DS KeyL (Option T)) (k : KeyL) : Option T :=
  (dsGet ds k).join

/-- The `(state, action)` pair the codec computes for `e` against the
datastore as it is at the start of the `reduce` call. -/
def genRes {T π : Type} (codec : EventCodec T π) (ds : DS KeyL (Option T))
    (e : StoreEvent π) : Option T × ActionType :=
  codec.reduce (storedState ds (eventKey e)) e

/-- The normalized action tag `reduce` records for `e`. -/
def genAction {T π : Type} (codec : EventCodec T π) (ds : DS KeyL (Option T))
    (e : StoreEvent π) : ActionType :=
  (genRes codec ds e).2

/-- The batch operation `reduce` accumulates for `e` (meaningful when
`okEvent` holds: `delete` removes the key, `create`/`save` write the state). -/
def genOp {T π : Type} (codec : EventCodec T π) (ds : DS KeyL (Option T))
    (e : StoreEvent π) : BatchOp KeyL (Option T) :=
  match (genRes codec ds e).2 with
  | .delete => BatchOp.del (eventKey e)
  | _ => BatchOp.put (eventKey e) (genRes codec ds e).1

/-- `e` does not make the reduce loop throw: its action tag is recognised and
it is not a `create` against existing stored state. -/
def okEvent {T π : Type} (codec : EventCodec T π) (ds : DS KeyL (Option T))
    (e : StoreEvent π) : Bool :=
  match (genRes codec ds e).2 with
  | .unknown => false
  | .create => (storedState ds (eventKey e)).isNone
  | _ => true

/-- The `for (const event of events)` loop of `Store.reduce`: reads go to the
datastore `ds` (the pending batch is not visible), mutations accumulate in
`batch`, normalized actions in `acts`. -/
def reduceLoop {T π : Type} (codec : EventCodec T π) (ds : DS KeyL (Option T)) :
    List (StoreEvent π) → List (BatchOp KeyL (Option T)) → List ActionType →
      Except StoreErr (List (BatchOp KeyL (Option T)) × List ActionType)
  | [], batch, acts => Except.ok (batch, acts)
  | e :: rest, batch, acts =>
    let key := eventKey e
    let oldState := storedState ds key
    let r := codec.reduce oldState e
    let acts' := acts ++ [r.2]
    match r.2 with
    | .delete => reduceLoop codec ds rest (batch ++ [BatchOp.del key]) acts'
    | .create =>
      if oldState.isSome then Except.error StoreErr.entityAlreadyExists
      else reduceLoop codec ds rest (batch ++ [BatchOp.put key r.1]) acts'
    | .save => reduceLoop codec ds rest (batch ++ [BatchOp.put key r.1]) acts'
    | .unknown => Except.error StoreErr.unknownOperation

/-- `Store.reduce(...events)`: run the loop, commit the batch as one unit and
report the normalized actions (the `stateChange` emission). -/
def Store.reduce {T π : Type} (codec : EventCodec T π) (ds : DS KeyL (Option T))
    (events : List (StoreEvent π)) :
    Except StoreErr (DS KeyL (Option T) × List ActionType) :=
  match reduceLoop codec ds events [] [] with
  | Except.error err => Except.error err
  | Except.ok (batch, acts) => Except.ok (commitBatch ds batch, acts)

/-- The datastore after a `reduce` call: a throw happens before
`batch.commit()`, so on error the datastore is unchanged. -/
def reduceStateAfter {T π : Type} (codec : EventCodec T π) (ds : DS KeyL (Option T))
    (events : List (StoreEvent π)) : DS KeyL (Option T) :=
  match Store.reduce codec ds events with
  | Except.ok p => p.1
  | Except.error _ => ds

/-- Modelled from the spec's words (for the refinement comparison in C1): the
left-fold of the codec's reduce function over an entity's events, starting
from the entity's previously stored state; a `delete` action removes the key,
a `create` or `save` action writes the new state.  The fold state is the raw
key content: `none` = key absent, `some v` = key present with decoded state `v`. -/
def specEntityFold {T π : Type} (codec : EventCodec T π) (σ0 : Option (Option T))
    (evs : List (StoreEvent π)) : Option (Option T) :=
  evs.foldl
    (fun σ e =>
      let r := codec.reduce σ.join e
      match r.2 with
      | .delete => none
      | .create => some r.1
      | .save => some r.1
      | .unknown => σ)
    σ0

/-! ### Store: schema registration (src/unnamed/part_000, lines 15-17, 105-115, 165-195) -/

/-- A registered collection: its name and its (compiled) schema. -/
structure Collection (σ : Type) : Type where
  name : String
  schema : σ
deriving DecidableEq

/-- The mutable state of a `Store` relevant to schema registration: the
backing datastore, the Ajv schema registry and the collection map. -/
structure SchemaStore (σ : Type) : Type where
  ds : DS KeyL σ
  ajv : DS String σ
  collections : DS String (Collection σ)
deriving DecidableEq

/-- `baseKey = new Key('store')`. -/
def baseKeyL : KeyL := ["store"]

/-- `threadKey = baseKey.child(new Key('threadid'))`. -/
def threadKeyL : KeyL := ["store", "threadid"]

/-- `schemaKey = baseKey.child(new Key('schema'))`. -/
def schemaKeyL : KeyL := ["store", "schema"]

/-- `Store.registerSchema(name, schema)`: reject duplicates, add the schema to
the Ajv registry, build the collection, persist the raw schema under
`baseKey.child(new Key(name))` (note: `baseKey`, not `schemaKey`) when absent,
and expose the collection. -/
def Store.registerSchema {σ : Type} (st : SchemaStore σ) (name : String) (schema : σ) :
    Except StoreErr (SchemaStore σ) :=
  if dsHas st.collections name then Except.error StoreErr.alreadyRegistered
  else
    let ajv' := dsPut st.ajv name schema
    let collection : Collection σ := { name := name, schema := schema }
    let key := baseKeyL ++ [name]
    let ds' := if dsHas st.ds key then st.ds else dsPut st.ds key schema
    Except.ok { ds := ds', ajv := ajv', collections := dsPut st.collections name collection }

/-- The store state after a `registerSchema` call (unchanged when it throws). -/
def registerSchemaState {σ : Type} (st : SchemaStore σ) (name : String) (schema : σ) :
    SchemaStore σ :=
  match Store.registerSchema st name schema with
  | Except.ok st' => st'
  | Except.error _ => st

/-- `Store.getCollection(name)`. -/
def Store.getCollection {σ : Type} (st : SchemaStore σ) (name : String) :
    Option (Collection σ) :=
  dsGet st.collections name

/-- One iteration of the `registerSchemas` recovery loop; the call is not
awaited, and a rejection leaves the state as it was. -/
def regSwallow {σ : Type} (st : SchemaStore σ) (name : String) (schema : σ) :
    SchemaStore σ :=
  match Store.registerSchema st name schema with
  | Except.ok st' => st'
  | Except.error _ => st

/-- `Store.registerSchemas()`: scan the persisted `/store/schema` namespace and
re-register every schema found there. -/
def Store.registerSchemas {σ : Type} (st : SchemaStore σ) : SchemaStore σ :=
  (dsQuery st.ds schemaKeyL).foldl (fun acc p => regSwallow acc (keyName p.1) p.2) st

/-- A schema store with nothing registered. -/
def emptySchemaStore (σ : Type) : SchemaStore σ :=
  { ds := [], ajv := [], collections := [] }

/-- Constructing a new `Store` over an existing datastore: fresh in-memory
registries, then the constructor's `registerSchemas()` recovery scan. -/
def Store.restart {σ : Type} (ds : DS KeyL σ) : SchemaStore σ :=
  Store.registerSchemas { ds := ds, ajv := [], collections := [] }

/-! ### Store.threadID (src/unnamed/part_000, lines 59-68) -/

/-- A datastore failure: `Not Found` or any other rejection. -/
inductive DsError : Type
  | notFound
  | other (code : Nat)
deriving DecidableEq

/-- `ThreadID.fromBytes` (thread ids are identified with their byte encoding). -/
def tidFromBytes (b : List Nat) : List Nat := b

/-- `Store.threadID()`: `try { return ThreadID.fromBytes(await get(threadKey)) }
catch (err) { return undefined }` — the catch swallows every error, so the
call itself never rejects. -/
def Store.threadID (get : KeyL → Except DsError (List Nat)) :
    Except DsError (Option (List Nat)) :=
  match get threadKeyL with
  | Except.ok b => Except.ok (some (tidFromBytes b))
  | Except.error _ => Except.ok none

/-! ### AddrBook (src/unnamed/part_002) -/

/-- The TTL datastore backing the address book: each key holds the address
bytes and the entry's expiration timestamp. -/
abbrev TTLDS := DS KeyL (String × Int)

/-- A batch operation against the TTL datastore carries only the value; the
expiration `now + ttl` is attached when the batch is committed. -/
def ttlOpVal (now ttl : Int) : BatchOp KeyL String → BatchOp KeyL (String × Int)
  | .put k v => BatchOp.put k (v, now + ttl)
  | .del k => BatchOp.del k

/-- Commit of a `TTLDatastore` batch created with `batch(ttl)`. -/
def ttlCommit (now ttl : Int) (ds : TTLDS) (ops : List (BatchOp KeyL String)) : TTLDS :=
  commitBatch ds (ops.map (ttlOpVal now ttl))

/-- `getKey(id, log) = new Key(id.string()).child(new Key(log))`. -/
def getKey (id log : String) : KeyL := [id, log]

/-- The `for (const addr of addrs)` loop of `AddrBook.put`: `has` and
`expiration` read the datastore (not the pending batch); a `newAddr` emission
carries the log and the whole `addrs` argument. -/
def putLoop (now : Int) (ds : TTLDS) (base : KeyL) (log : String) (ttl : Int)
    (addrsAll : List String) :
    List String → List (BatchOp KeyL String) → List (String × List String) →
      List (BatchOp KeyL String) × List (String × List String)
  | [], batch, events => (batch, events)
  | addr :: rest, batch, events =>
    let key := base ++ [addr]
    if ttl ≤ 0 then
      putLoop now ds base log ttl addrsAll rest (batch ++ [BatchOp.del key]) events
    else
      match dsGet ds key with
      | some p =>
        if p.2 < now + ttl then
          putLoop now ds base log ttl addrsAll rest (batch ++ [BatchOp.put key addr]) events
        else
          putLoop now ds base log ttl addrsAll rest batch events
      | none =>
        putLoop now ds base log ttl addrsAll rest (batch ++ [BatchOp.put key addr])
          (events ++ [(log, addrsAll)])

/-- The batch built by the no-address refresh path of `AddrBook.put`: every
entry under the log's key is re-put (resetting its TTL) or, for `ttl ≤ 0`,
deleted. -/
def refreshOps (ds : TTLDS) (base : KeyL) (ttl : Int) : List (BatchOp KeyL String) :=
  (dsQuery ds base).map (fun p => if ttl ≤ 0 then BatchOp.del p.1 else BatchOp.put p.1 p.2.1)

/-- `AddrBook.put(id, log, ttl, ...addrs)`: returns the committed datastore and
the list of `newAddr` emissions (in order). -/
def AddrBook.put (now : Int) (ds : TTLDS) (id log : String) (ttl : Int)
    (addrs : List String) : TTLDS × List (String × List String) :=
  let base := getKey id log
  if addrs.isEmpty then
    (ttlCommit now ttl ds (refreshOps ds base ttl), [])
  else
    let r := putLoop now ds base log ttl addrs addrs [] []
    (ttlCommit now ttl ds r.1, r.2)

/-- The batch operation (if any) one loop iteration of `AddrBook.put`
contributes for the address `addr` (used in proofs). -/
def putOp1 (now ttl : Int) (ds : TTLDS) (base : KeyL) (addr : String) :
    Option (BatchOp KeyL String) :=
  if ttl ≤ 0 then some (BatchOp.del (base ++ [addr]))
  else
    match dsGet ds (base ++ [addr]) with
    | some p => if p.2 < now + ttl then some (BatchOp.put (base ++ [addr]) addr) else none
    | none => some (BatchOp.put (base ++ [addr]) addr)

/-- Closed form of the batch `putLoop` builds (used in proofs). -/
def putOps (now ttl : Int) (ds : TTLDS) (base : KeyL) (addrs : List String) :
    List (BatchOp KeyL String) :=
  addrs.filterMap (putOp1 now ttl ds base)

/-- Closed form of the `newAddr` emissions `putLoop` produces (used in proofs). -/
def putEvents (ds : TTLDS) (base : KeyL) (log : String) (ttl : Int)
    (addrsAll addrs : List String) : List (String × List String) :=
  if ttl ≤ 0 then []
  else (addrs.filter (fun a => !(dsHas ds (base ++ [a])))).map (fun _ => (log, addrsAll))

/-- The entry at `k` is present with expiration at least `e`. -/
def expGe (ds : TTLDS) (k : KeyL) (e : Int) : Bool :=
  match dsGet ds k with
  | some p => decide (e ≤ p.2)
  | none => false

/-- `Key.reverse()`. -/
def keyReverse (k : KeyL) : KeyL := k.reverse

/-- `Key.parent()` (drop the last component). -/
def keyParent (k : KeyL) : KeyL := k.dropLast

/-- `Key.baseNamespace()` (the last component). -/
def keyBaseNamespace (k : KeyL) : String := k.getLast?.getD ""

/-- `key.reverse().parent().baseNamespace()` as computed by `AddrBook.logs`. -/
def logComponent (k : KeyL) : String :=
  keyBaseNamespace (keyParent (keyReverse k))

/-- `Set.add` over an insertion-ordered list. -/
def addUnique (acc : List String) (s : String) : List String :=
  if s ∈ acc then acc else acc ++ [s]

/-- `AddrBook.logs(id)`: iterate every key of the whole datastore (the `id`
argument is never used) and collect `key.reverse().parent().baseNamespace()`. -/
def AddrBook.logs (ds : TTLDS) (id : String) : List String :=
  ds.foldl (fun acc p => addUnique acc (logComponent p.1)) []

/-- The `ttl`/`frequency` options of `TTLDatastoreOptions`. -/
structure TTLOptions : Type where
  ttl : Int
  frequency : Int
deriving DecidableEq

/-- `Duration.Hour` from `@textile/datastore-ttl` (milliseconds). -/
def durationHour : Int := 3600000

/-- The dead `options` local computed by the `AddrBook` constructor and never
used (`opts?.ttl || Duration.Hour`; `||` also replaces a zero value, since `0`
is falsy in JS). -/
def AddrBook.ctorLocalOptions (opts : Option TTLOptions) : TTLOptions :=
  { ttl :=
      match opts with
      | some o => if o.ttl = 0 then durationHour else o.ttl
      | none => durationHour
    frequency :=
      match opts with
      | some o => if o.frequency = 0 then durationHour * 2 else o.frequency
      | none => durationHour * 2 }

/-- The state an `AddrBook` holds after construction: the wrapped datastore and
the options actually passed to `TTLDatastore`. -/
structure AddrBookState : Type where
  datastore : TTLDS
  ttlConfig : TTLOptions
deriving DecidableEq

/-- The `AddrBook` constructor: whatever `opts` holds, the `TTLDatastore` is
built with the literal `{ frequency: 20, ttl: 100 }`. -/
def AddrBook.mkState (ds : TTLDS) (opts : Option TTLOptions) : AddrBookState :=
  { datastore := ds, ttlConfig := { ttl := 100, frequency := 20 } }

/-! ### Concrete inputs for counterexamples and witnesses -/

/-- A small concrete codec: payload `0` deletes, payload `1` creates with
counter `old + 1`, any other payload saves `old + payload`. -/
def mixCodec : EventCodec Nat Nat :=
  { reduce := fun old e =>
      if e.payload = 0 then (none, ActionType.delete)
      else if e.payload = 1 then (some (old.getD 0 + 1), ActionType.create)
      else (some (old.getD 0 + e.payload), ActionType.save) }

/-- Event saving `+2` on entity `x` of collection `c`. -/
def evSaveX : StoreEvent Nat := { collection := "c", entityID := "x", payload := 2 }

/-- Event saving `+3` on entity `y` of collection `c`. -/
def evSaveY : StoreEvent Nat := { collection := "c", entityID := "y", payload := 3 }

/-- Event creating entity `x` of collection `c`. -/
def evCreateX : StoreEvent Nat := { collection := "c", entityID := "x", payload := 1 }

/-- The entity key of `evSaveX` and `evCreateX`. -/
def keyX : KeyL := ["collection", "c", "x"]

/-- A batch with two events on the same entity (violates per-entity folding). -/
def c1CexEvents : List (StoreEvent Nat) := [evSaveX, evSaveX]

/-- A batch with one event per entity. -/
def c1WitEvents : List (StoreEvent Nat) := [evSaveX, evSaveY]

/-- Entity datastore with existing state `7` for entity `x`. -/
def c4ds : DS KeyL (Option Nat) := [(["collection", "c", "x"], some 7)]

/-- Events processed before the failing `create` in the C4 witness. -/
def c4pre : List (StoreEvent Nat) := [evSaveY]

/-- The schema-store state after registering `"P" ↦ 1` on an empty store. -/
def c5St1 : SchemaStore Nat :=
  { ds := [(["store", "P"], 1)]
    ajv := [("P", 1)]
    collections := [("P", { name := "P", schema := 1 })] }

/-- A datastore whose `get` always rejects with a non-`NotFound` error. -/
def c6GetBad : KeyL → Except DsError (List Nat) := fun _ => Except.error (DsError.other 7)

/-- A datastore holding thread-id bytes `[1, 2]`. -/
def c6GetOk : KeyL → Except DsError (List Nat) := fun k =>
  if k = threadKeyL then Except.ok [1, 2] else Except.error DsError.notFound

/-- TTL datastore with one address `a` for log `l` of thread `t`,
expiring at time `1000`. -/
def c7ds : TTLDS := [(["t", "l", "a"], ("a", 1000))]

/-- TTL datastore with entries under two different thread ids. -/
def c10ds : TTLDS := [(["t1", "l1", "a1"], ("a1", 5)), (["t2", "l2", "a2"], ("a2", 6))]

/-! ### Lemmas: datastore lookups and batch commits -/

theorem find?_filter_ne {κ α : Type} [DecidableEq κ] (ds : List (κ × α)) (k k' : κ)
    (h : ¬ k' = k) :
    (ds.filter (fun p => decide (¬ p.1 = k))).find? (fun p => decide (p.1 = k')) =
      ds.find? (fun p => decide (p.1 = k')) := by
  rw [List.find?_filter]
  have hfun : (fun a : κ × α =>
      decide ((decide (¬ a.1 = k)) = true ∧ (decide (a.1 = k')) = true)) =
      (fun p : κ × α => decide (p.1 = k')) := by
    funext p
    by_cases hp : p.1 = k'
    · have hpk : ¬ p.1 = k := fun hh => h (by rw [← hp]; exact hh)
      simp [hp, hpk, h]
    · simp [hp]
  rw [hfun]

theorem find?_filter_self {κ α : Type} [DecidableEq κ] (ds : List (κ × α)) (k : κ) :
    (ds.filter (fun p => decide (¬ p.1 = k))).find? (fun p => decide (p.1 = k)) = none := by
  rw [List.find?_filter, List.find?_eq_none]
  intro x _
  by_cases hx : x.1 = k <;> simp [hx]

theorem dsGet_put_self {κ α : Type} [DecidableEq κ] (ds : DS κ α) (k : κ) (v : α) :
    dsGet (dsPut ds k v) k = some v := by
  unfold dsGet dsPut
  rw [List.find?_append, find?_filter_self]
  simp [List.find?_cons]

theorem dsGet_put_other {κ α : Type} [DecidableEq κ] (ds : DS κ α) (k k' : κ) (v : α)
    (h : ¬ k' = k) :
    dsGet (dsPut ds k v) k' = dsGet ds k' := by
  unfold dsGet dsPut
  rw [List.find?_append, find?_filter_ne ds k k' h]
  cases hf : ds.find? (fun p => decide (p.1 = k')) with
  | none =>
    have : ¬ k = k' := fun hh => h hh.symm
    simp [List.find?_cons, this]
  | some q => simp

theorem dsGet_del_self {κ α : Type} [DecidableEq κ] (ds : DS κ α) (k : κ) :
    dsGet (dsDel ds k) k = none := by
  unfold dsGet dsDel
  rw [find?_filter_self]
  rfl

theorem dsGet_del_other {κ α : Type} [DecidableEq κ] (ds : DS κ α) (k k' : κ)
    (h : ¬ k' = k) :
    dsGet (dsDel ds k) k' = dsGet ds k' := by
  unfold dsGet dsDel
  rw [find?_filter_ne ds k k' h]

theorem dsGet_applyOp {κ α : Type} [DecidableEq κ] (ds : DS κ α) (op : BatchOp κ α) (k : κ) :
    dsGet (applyOp ds op) k = stepOp k (dsGet ds k) op := by
  cases op with
  | put k' v =>
    by_cases h : k' = k
    · subst h
      simp [applyOp, stepOp, dsGet_put_self]
    · have h' : ¬ k = k' := fun hh => h hh.symm
      simp [applyOp, stepOp, h, dsGet_put_other ds k' k v h']
  | del k' =>
    by_cases h : k' = k
    · subst h
      simp [applyOp, stepOp, dsGet_del_self]
    · have h' : ¬ k = k' := fun hh => h hh.symm
      simp [applyOp, stepOp, h, dsGet_del_other ds k' k h']

theorem dsGet_commit {κ α : Type} [DecidableEq κ] (ops : List (BatchOp κ α)) (ds : DS κ α)
    (k : κ) :
    dsGet (commitBatch ds ops) k = ops.foldl (stepOp k) (dsGet ds k) := by
  induction ops generalizing ds with
  | nil => rfl
  | cons op rest ih =>
    show dsGet (commitBatch (applyOp ds op) rest) k = _
    rw [ih (applyOp ds op), dsGet_applyOp]
    rfl

theorem foldl_stepOp_no_touch {κ α : Type} [DecidableEq κ] (k : κ)
    (ops : List (BatchOp κ α)) (acc : Option α)
    (h : ∀ op ∈ ops, ¬ opKey op = k) :
    ops.foldl (stepOp k) acc = acc := by
  induction ops generalizing acc with
  | nil => rfl
  | cons op rest ih =>
    have hop : ¬ opKey op = k := h op (List.mem_cons_self op rest)
    have hstep : stepOp k acc op = acc := by
      cases op with
      | put k' v => simp [stepOp, opKey] at hop ⊢; simp [hop]
      | del k' => simp [stepOp, opKey] at hop ⊢; simp [hop]
    rw [List.foldl_cons, hstep]
    exact ih acc (fun op' h' => h op' (List.mem_cons_of_mem op h'))

/-! ### Lemmas: the reduce loop -/

theorem genRes_def {T π : Type} (codec : EventCodec T π) (ds : DS KeyL (Option T))
    (e : StoreEvent π) :
    codec.reduce (storedState ds (eventKey e)) e = genRes codec ds e := rfl

theorem genOp_key {T π : Type} (codec : EventCodec T π) (ds : DS KeyL (Option T))
    (e : StoreEvent π) :
    opKey (genOp codec ds e) = eventKey e := by
  unfold genOp
  cases (genRes codec ds e).2 <;> rfl

theorem reduceLoop_append {T π : Type} (codec : EventCodec T π) (ds : DS KeyL (Option T))
    (pre rest : List (StoreEvent π)) :
    ∀ (batch : List (BatchOp KeyL (Option T))) (acts : List ActionType),
      (∀ p ∈ pre, okEvent codec ds p = true) →
      reduceLoop codec ds (pre ++ rest) batch acts =
        reduceLoop codec ds rest (batch ++ pre.map (genOp codec ds))
          (acts ++ pre.map (genAction codec ds)) := by
  induction pre with
  | nil => intro batch acts _; simp
  | cons e tl ih =>
    intro batch acts hpre
    have he : okEvent codec ds e = true := hpre e (List.mem_cons_self e tl)
    have htl : ∀ p ∈ tl, okEvent codec ds p = true :=
      fun p hp => hpre p (List.mem_cons_of_mem e hp)
    show reduceLoop codec ds (e :: (tl ++ rest)) batch acts = _
    simp only [reduceLoop, genRes_def]
    have hunfold : okEvent codec ds e =
        (match (genRes codec ds e).2 with
        | ActionType.unknown => false
        | ActionType.create => (storedState ds (eventKey e)).isNone
        | _ => true) := rfl
    split
    · rename_i hact
      have hop : genOp codec ds e = BatchOp.del (eventKey e) := by
        unfold genOp; rw [hact]
      have hga : genAction codec ds e = ActionType.delete := by
        unfold genAction; rw [hact]
      rw [hact, ih _ _ htl, List.map_cons, List.map_cons, hop, hga]
      simp [List.append_assoc]
    · rename_i hact
      have hnone : storedState ds (eventKey e) = none := by
        rw [hunfold, hact] at he
        exact Option.isNone_iff_eq_none.mp he
      have hcond : (storedState ds (eventKey e)).isSome = false := by
        rw [hnone]; rfl
      have hop : genOp codec ds e = BatchOp.put (eventKey e) (genRes codec ds e).1 := by
        unfold genOp; rw [hact]
      have hga : genAction codec ds e = ActionType.create := by
        unfold genAction; rw [hact]
      rw [hact, hcond]
      simp only [Bool.false_eq_true, if_false]
      rw [ih _ _ htl, List.map_cons, List.map_cons, hop, hga]
      simp [List.append_assoc]
    · rename_i hact
      have hop : genOp codec ds e = BatchOp.put (eventKey e) (genRes codec ds e).1 := by
        unfold genOp; rw [hact]
      have hga : genAction codec ds e = ActionType.save := by
        unfold genAction; rw [hact]
      rw [hact, ih _ _ htl, List.map_cons, List.map_cons, hop, hga]
      simp [List.append_assoc]
    · rename_i hact
      rw [hunfold, hact] at he
      simp at he

theorem store_reduce_ok {T π : Type} (codec : EventCodec T π) (ds : DS KeyL (Option T))
    (events : List (StoreEvent π))
    (hok : ∀ e ∈ events, okEvent codec ds e = true) :
    Store.reduce codec ds events =
      Except.ok (commitBatch ds (events.map (genOp codec ds)),
        events.map (genAction codec ds)) := by
  have h := reduceLoop_append codec ds events [] [] [] hok
  rw [List.append_nil] at h
  unfold Store.reduce
  rw [h]
  simp [reduceLoop]

theorem foldl_genOps_no_key {T π : Type} (codec : EventCodec T π) (ds : DS KeyL (Option T))
    (k : KeyL) (evs : List (StoreEvent π)) (acc : Option (Option T))
    (h : ∀ e ∈ evs, ¬ eventKey e = k) :
    (evs.map (genOp codec ds)).foldl (stepOp k) acc = acc := by
  apply foldl_stepOp_no_touch
  intro op hop
  rcases List.mem_map.mp hop with ⟨e, he, rfl⟩
  rw [genOp_key]
  exact h e he

theorem foldl_genOps_spec {T π : Type} (codec : EventCodec T π) (ds : DS KeyL (Option T))
    (k : KeyL) (events : List (StoreEvent π))
    (hok : ∀ e ∈ events, okEvent codec ds e = true)
    (hnd : (events.map (fun e => eventKey e)).Nodup) :
    (events.map (genOp codec ds)).foldl (stepOp k) (dsGet ds k) =
      specEntityFold codec (dsGet ds k)
        (events.filter (fun e => decide (eventKey e = k))) := by
  induction events with
  | nil => rfl
  | cons e tl ih =>
    have he : okEvent codec ds e = true := hok e (List.mem_cons_self e tl)
    have htl : ∀ p ∈ tl, okEvent codec ds p = true :=
      fun p hp => hok p (List.mem_cons_of_mem e hp)
    simp only [List.map_cons] at hnd
    have hnd' := List.nodup_cons.mp hnd
    have hunfold : okEvent codec ds e =
        (match (genRes codec ds e).2 with
        | ActionType.unknown => false
        | ActionType.create => (storedState ds (eventKey e)).isNone
        | _ => true) := rfl
    by_cases hk : eventKey e = k
    · subst hk
      have htl_ne : ∀ p ∈ tl, ¬ eventKey p = eventKey e := by
        intro p hp hpk
        exact hnd'.1 (by rw [← hpk]; exact List.mem_map.mpr ⟨p, hp, rfl⟩)
      have hfiltl : tl.filter (fun p => decide (eventKey p = eventKey e)) = [] := by
        rw [List.filter_eq_nil_iff]
        intro p hp
        simpa using htl_ne p hp
      rw [List.map_cons, List.foldl_cons, List.filter_cons]
      simp only [decide_eq_true_eq]
      rw [if_pos trivial, hfiltl]
      rw [foldl_genOps_no_key codec ds (eventKey e) tl _ htl_ne]
      show stepOp (eventKey e) (dsGet ds (eventKey e)) (genOp codec ds e) =
        specEntityFold codec (dsGet ds (eventKey e)) [e]
      unfold specEntityFold
      rw [List.foldl_cons, List.foldl_nil]
      show stepOp (eventKey e) (dsGet ds (eventKey e)) (genOp codec ds e) =
        (match (genRes codec ds e).2 with
        | ActionType.delete => none
        | ActionType.create => some (genRes codec ds e).1
        | ActionType.save => some (genRes codec ds e).1
        | ActionType.unknown => dsGet ds (eventKey e))
      cases hact : (genRes codec ds e).2 with
      | delete =>
        have hop : genOp codec ds e = BatchOp.del (eventKey e) := by
          unfold genOp; rw [hact]
        rw [hop]
        simp [stepOp]
      | create =>
        have hop : genOp codec ds e = BatchOp.put (eventKey e) (genRes codec ds e).1 := by
          unfold genOp; rw [hact]
        rw [hop]
        simp [stepOp]
      | save =>
        have hop : genOp codec ds e = BatchOp.put (eventKey e) (genRes codec ds e).1 := by
          unfold genOp; rw [hact]
        rw [hop]
        simp [stepOp]
      | unknown =>
        rw [hunfold, hact] at he
        simp at he
    · rw [List.map_cons, List.foldl_cons, List.filter_cons]
      have hstep : stepOp k (dsGet ds k) (genOp codec ds e) = dsGet ds k := by
        have hkey := genOp_key codec ds e
        cases hop : genOp codec ds e with
        | put k' v =>
          rw [hop] at hkey
          simp [opKey] at hkey
          subst hkey
          simp [stepOp, hk]
        | del k' =>
          rw [hop] at hkey
          simp [opKey] at hkey
          subst hkey
          simp [stepOp, hk]
      rw [hstep]
      simp only [decide_eq_true_eq]
      rw [if_neg hk]
      exact ih htl hnd'.2

/-! ### Claims C1 and C4 -/

/-- C1 (amended): `Store.reduce` processes the events of a batch strictly in
the order given (the recorded normalized actions are the codec's results in
event order), but each event's old state is read from the datastore as it was
before the call — pending batch writes are not visible.  Consequently, when
every entity has at most one event in the batch (pairwise distinct entity
keys) and no event makes the loop throw, the stored content of each entity
key after the batch equals the left-fold of the codec's reduce function over
that entity's events starting from the previously stored state: a `delete`
normalized action removes the key, a `create` or `save` normalized action
writes the new state. -/
theorem store_reduce_ordered_fold {T π : Type} (codec : EventCodec T π)
    (ds : DS KeyL (Option T)) (events : List (StoreEvent π)) (k : KeyL)
    (hok : ∀ e ∈ events, okEvent codec ds e = true)
    (hnd : (events.map (fun e => eventKey e)).Nodup) :
    (Store.reduce codec ds events).map (fun p => (dsGet p.1 k, p.2)) =
      Except.ok (specEntityFold codec (dsGet ds k)
          (events.filter (fun e => decide (eventKey e = k))),
        events.map (genAction codec ds)) := by
  rw [store_reduce_ok codec ds events hok]
  show Except.ok (dsGet (commitBatch ds (events.map (genOp codec ds))) k,
    events.map (genAction codec ds)) = _
  rw [dsGet_commit, foldl_genOps_spec codec ds k events hok hnd]

/-- Witness for C1: a two-event batch on distinct entities, evaluated at the
key of the first entity. -/
theorem store_reduce_ordered_fold_witness :
    ((∀ e ∈ c1WitEvents, okEvent mixCodec ([] : DS KeyL (Option Nat)) e = true) ∧
      (c1WitEvents.map (fun e => eventKey e)).Nodup) ∧
    (Store.reduce mixCodec [] c1WitEvents).map (fun p => (dsGet p.1 keyX, p.2)) =
      Except.ok (specEntityFold mixCodec (dsGet ([] : DS KeyL (Option Nat)) keyX)
          (c1WitEvents.filter (fun e => decide (eventKey e = keyX))),
        c1WitEvents.map (genAction mixCodec [])) :=
  ⟨⟨by decide, by decide⟩,
    store_reduce_ordered_fold mixCodec [] c1WitEvents keyX (by decide) (by decide)⟩

/-- Counterexample to C1 as stated: two `save` events on the same entity in
one batch.  The loop reads the pre-call state (`undefined`) for both events,
so the committed state is `2`, while the left-fold of the codec's reduce
function over the entity's events (which chains the first event's output into
the second) yields `4`. -/
theorem store_reduce_fold_counterexample :
    (Store.reduce mixCodec [] c1CexEvents).map (fun p => dsGet p.1 keyX) =
        Except.ok (some (some 2)) ∧
      specEntityFold mixCodec (dsGet ([] : DS KeyL (Option Nat)) keyX)
          (c1CexEvents.filter (fun e => decide (eventKey e = keyX))) = some (some 4) := by
  decide

/-- C4: if, within one `Store.reduce` call, the events before `e` are
processed without throwing and the codec's normalized action for `e` is
`create` while `e`'s entity already has stored state, then the call fails
with `EntityAlreadyExists`, the batch is never committed — the datastore is
left exactly as before the call — and the error propagates to the caller. -/
theorem store_reduce_create_existing_aborts {T π : Type} (codec : EventCodec T π)
    (ds : DS KeyL (Option T)) (pre post : List (StoreEvent π)) (e : StoreEvent π)
    (hpre : ∀ p ∈ pre, okEvent codec ds p = true)
    (hact : (genRes codec ds e).2 = ActionType.create)
    (hold : (storedState ds (eventKey e)).isSome = true) :
    Store.reduce codec ds (pre ++ e :: post) = Except.error StoreErr.entityAlreadyExists ∧
      reduceStateAfter codec ds (pre ++ e :: post) = ds := by
  have hloop : reduceLoop codec ds (pre ++ e :: post)
      ([] : List (BatchOp KeyL (Option T))) ([] : List ActionType) =
      Except.error StoreErr.entityAlreadyExists := by
    rw [reduceLoop_append codec ds pre (e :: post) [] [] hpre]
    show reduceLoop codec ds (e :: post) _ _ = _
    simp only [reduceLoop, genRes_def]
    rw [hact, hold]
    simp
  refine ⟨?_, ?_⟩
  · unfold Store.reduce
    rw [hloop]
  · unfold reduceStateAfter Store.reduce
    rw [hloop]

/-- Witness for C4: a batch `[save y, create x]` against a store where `x`
already holds state `7`. -/
theorem store_reduce_create_existing_aborts_witness :
    ((∀ p ∈ c4pre, okEvent mixCodec c4ds p = true) ∧
      (genRes mixCodec c4ds evCreateX).2 = ActionType.create ∧
      (storedState c4ds (eventKey evCreateX)).isSome = true) ∧
    (Store.reduce mixCodec c4ds (c4pre ++ evCreateX :: []) =
        Except.error StoreErr.entityAlreadyExists ∧
      reduceStateAfter mixCodec c4ds (c4pre ++ evCreateX :: []) = c4ds) :=
  ⟨⟨by decide, by decide, by decide⟩,
    store_reduce_create_existing_aborts mixCodec c4ds c4pre [] evCreateX
      (by decide) (by decide) (by decide)⟩

/-! ### Claims C2, C3, C5 (schema registration) -/

/-- C2 (code evaluated at the failing input): registering `"Person"` succeeds
and exposes the collection, but after constructing a new `Store` over the very
same datastore, `registerSchemas` finds nothing — `registerSchema` persisted
the schema under `/store/Person` while the recovery scan queries the
`/store/schema` prefix — so `getCollection` returns nothing. -/
theorem store_restart_loses_collections :
    (Store.registerSchema (emptySchemaStore Nat) "Person" 42).map
        (fun st => (Store.getCollection st "Person",
          Store.getCollection (Store.restart st.ds) "Person")) =
      Except.ok (some { name := "Person", schema := 42 }, none) := by
  decide

/-- C3 (code evaluated at the failing input): a successful
`registerSchema("Person", schema)` leaves `/store/schema/Person` empty and
instead persists the raw schema under `/store/Person`. -/
theorem registerSchema_persists_wrong_key :
    (Store.registerSchema (emptySchemaStore Nat) "Person" 42).map
        (fun st => (dsGet st.ds ["store", "schema", "Person"],
          dsGet st.ds ["store", "Person"])) =
      Except.ok (none, some 42) := by
  decide

/-- C5: after a first successful `registerSchema(name, sch1)`, a second
`registerSchema(name, sch2)` fails with the duplicate-registration error
before touching anything: the whole store state (datastore, Ajv registry and
collection map) is unchanged and `getCollection(name)` still returns the
first registration's collection. -/
theorem registerSchema_duplicate_rejected {σ : Type} (st0 st1 : SchemaStore σ)
    (name : String) (sch1 sch2 : σ)
    (h1 : Store.registerSchema st0 name sch1 = Except.ok st1) :
    Store.registerSchema st1 name sch2 = Except.error StoreErr.alreadyRegistered ∧
      registerSchemaState st1 name sch2 = st1 ∧
      Store.getCollection st1 name = some { name := name, schema := sch1 } := by
  unfold Store.registerSchema at h1
  split at h1
  · exact absurd h1 (by simp)
  · injection h1 with h1'
    subst h1'
    have herr : Store.registerSchema
        { ds := if dsHas st0.ds (baseKeyL ++ [name]) = true then st0.ds
            else dsPut st0.ds (baseKeyL ++ [name]) sch1
          ajv := dsPut st0.ajv name sch1
          collections := dsPut st0.collections name { name := name, schema := sch1 } }
        name sch2 = Except.error StoreErr.alreadyRegistered := by
      unfold Store.registerSchema
      simp [dsHas, dsGet_put_self]
    refine ⟨herr, ?_, ?_⟩
    · unfold registerSchemaState
      rw [herr]
    · unfold Store.getCollection
      exact dsGet_put_self st0.collections name { name := name, schema := sch1 }

/-- Witness for C5: register `"P" ↦ 1` on an empty store, then try `"P" ↦ 2`. -/
theorem registerSchema_duplicate_rejected_witness :
    (Store.registerSchema (emptySchemaStore Nat) "P" 1 = Except.ok c5St1) ∧
    (Store.registerSchema c5St1 "P" 2 = Except.error StoreErr.alreadyRegistered ∧
      registerSchemaState c5St1 "P" 2 = c5St1 ∧
      Store.getCollection c5St1 "P" = some { name := "P", schema := 1 }) :=
  ⟨by decide,
    registerSchema_duplicate_rejected (emptySchemaStore Nat) c5St1 "P" 1 2 (by decide)⟩

/-! ### Claim C6 (Store.threadID) -/

/-- C6 (amended): `threadID()` returns the persisted thread identifier when
the datastore `get` succeeds, and returns `undefined` — without re-raising —
whenever the `get` fails, whether with `NotFound` or with any other failure. -/
theorem store_threadID_swallows_all (get : KeyL → Except DsError (List Nat)) :
    (∀ e, get threadKeyL = Except.error e → Store.threadID get = Except.ok none) ∧
    (∀ b, get threadKeyL = Except.ok b →
      Store.threadID get = Except.ok (some (tidFromBytes b))) := by
  refine ⟨fun e he => ?_, fun b hb => ?_⟩
  · unfold Store.threadID
    rw [he]
  · unfold Store.threadID
    rw [hb]

/-- Witness for C6: a store whose `get` always rejects with a non-`NotFound`
error yields `undefined`; a store holding thread-id bytes yields them. -/
theorem store_threadID_swallows_all_witness :
    Store.threadID c6GetBad = Except.ok none ∧
      Store.threadID c6GetOk = Except.ok (some (tidFromBytes [1, 2])) :=
  ⟨(store_threadID_swallows_all c6GetBad).1 (DsError.other 7) rfl,
    (store_threadID_swallows_all c6GetOk).2 [1, 2] (by decide)⟩

/-- Counterexample to C6 as stated: the `get` fails with a non-`NotFound`
error, yet `threadID()` does not re-raise it — the catch-all returns
`undefined`. -/
theorem store_threadID_reraise_counterexample :
    c6GetBad threadKeyL = Except.error (DsError.other 7) ∧
      DsError.other 7 ≠ DsError.notFound ∧
      Store.threadID c6GetBad = Except.ok none ∧
      Store.threadID c6GetBad ≠ Except.error (DsError.other 7) := by
  decide

/-! ### Lemmas: AddrBook.put -/

theorem putLoop_spec (now : Int) (ds : TTLDS) (base : KeyL) (log : String) (ttl : Int)
    (addrsAll : List String) :
    ∀ (addrs : List String) (batch : List (BatchOp KeyL String))
      (events : List (String × List String)),
      putLoop now ds base log ttl addrsAll addrs batch events =
        (batch ++ putOps now ttl ds base addrs,
          events ++ putEvents ds base log ttl addrsAll addrs) := by
  intro addrs
  induction addrs with
  | nil =>
    intro batch events
    simp [putLoop, putOps, putEvents]
  | cons a rest ih =>
    intro batch events
    show putLoop now ds base log ttl addrsAll (a :: rest) batch events = _
    simp only [putLoop]
    by_cases h0 : ttl ≤ 0
    · rw [if_pos h0, ih]
      unfold putOps putEvents putOp1
      rw [List.filterMap_cons]
      simp [h0, List.append_assoc]
    · rw [if_neg h0]
      split
      · rename_i p hget
        by_cases hexp : p.2 < now + ttl
        · rw [if_pos hexp, ih]
          unfold putOps putEvents putOp1
          rw [List.filterMap_cons]
          simp [h0, hget, hexp, dsHas, List.append_assoc, List.filter_cons]
        · rw [if_neg hexp, ih]
          unfold putOps putEvents putOp1
          rw [List.filterMap_cons]
          simp [h0, hget, hexp, dsHas, List.append_assoc, List.filter_cons]
      · rename_i hget
        rw [ih]
        unfold putOps putEvents putOp1
        rw [List.filterMap_cons]
        simp [h0, hget, dsHas, List.append_assoc, List.filter_cons]

theorem addrbook_put_events_eq (now : Int) (ds : TTLDS) (id log : String) (ttl : Int)
    (addrs : List String) :
    (AddrBook.put now ds id log ttl addrs).2 =
      putEvents ds (getKey id log) log ttl addrs addrs := by
  unfold AddrBook.put
  by_cases hnil : addrs.isEmpty = true
  · rw [if_pos hnil]
    have h : addrs = [] := List.isEmpty_iff.mp hnil
    subst h
    simp [putEvents]
  · rw [if_neg hnil]
    show (putLoop now ds (getKey id log) log ttl addrs addrs [] []).2 = _
    rw [putLoop_spec]
    simp

theorem putOps_mem {now ttl : Int} {ds : TTLDS} {base : KeyL} {addrs : List String}
    (hpos : 0 < ttl) {op0 : BatchOp KeyL String}
    (hop : op0 ∈ putOps now ttl ds base addrs) :
    ∃ a ∈ addrs, op0 = BatchOp.put (base ++ [a]) a ∧
      ∀ p, dsGet ds (base ++ [a]) = some p → p.2 < now + ttl := by
  rcases List.mem_filterMap.mp hop with ⟨a, ha, hfa⟩
  have h0 : ¬ ttl ≤ 0 := by omega
  unfold putOp1 at hfa
  rw [if_neg h0] at hfa
  split at hfa
  · rename_i p hget
    split at hfa
    · rename_i hexp
      refine ⟨a, ha, (Option.some_inj.mp hfa).symm, ?_⟩
      intro q hq
      rw [hget] at hq
      injection hq with hq'
      rw [← hq']
      exact hexp
    · exact Option.noConfusion hfa
  · rename_i hget
    refine ⟨a, ha, (Option.some_inj.mp hfa).symm, ?_⟩
    intro q hq
    rw [hget] at hq
    exact Option.noConfusion hq

theorem foldl_stepOp_some {κ α : Type} [DecidableEq κ] (k : κ) :
    ∀ (ops : List (BatchOp κ α)) (acc : Option α),
      (∀ op ∈ ops, ∃ k' v', op = BatchOp.put k' v') →
      (acc.isSome = true ∨ ∃ v, BatchOp.put k v ∈ ops) →
      (ops.foldl (stepOp k) acc).isSome = true := by
  intro ops
  induction ops with
  | nil =>
    intro acc _ hacc
    rcases hacc with h | ⟨v, hv⟩
    · simpa using h
    · simp at hv
  | cons op rest ih =>
    intro acc hall hacc
    rcases hall op (List.mem_cons_self op rest) with ⟨k', v', rfl⟩
    rw [List.foldl_cons]
    apply ih
    · exact fun o ho => hall o (List.mem_cons_of_mem _ ho)
    · by_cases hk : k' = k
      · subst hk
        left
        simp [stepOp]
      · rcases hacc with h | ⟨v, hv⟩
        · left
          simpa [stepOp, hk] using h
        · rcases List.mem_cons.mp hv with heq | hvrest
          · exfalso
            injection heq with hk2 hv2
            exact hk hk2.symm
          · right
            exact ⟨v, hvrest⟩

theorem foldl_stepOp_ge {κ : Type} [DecidableEq κ] (k : κ) (now ttl e : Int) :
    ∀ (ops : List (BatchOp κ (String × Int))) (acc : Option (String × Int)),
      (∀ op ∈ ops, ∃ k' v', op = BatchOp.put k' (v', now + ttl)) →
      ((∃ v', BatchOp.put k (v', now + ttl) ∈ ops) → e ≤ now + ttl) →
      (∃ p, acc = some p ∧ e ≤ p.2) →
      ∃ p, ops.foldl (stepOp k) acc = some p ∧ e ≤ p.2 := by
  intro ops
  induction ops with
  | nil =>
    intro acc _ _ hacc
    simpa using hacc
  | cons op rest ih =>
    intro acc hall hbound hacc
    rcases hall op (List.mem_cons_self op rest) with ⟨k', v', rfl⟩
    rw [List.foldl_cons]
    apply ih
    · exact fun o ho => hall o (List.mem_cons_of_mem _ ho)
    · rintro ⟨w, hw⟩
      exact hbound ⟨w, List.mem_cons_of_mem _ hw⟩
    · by_cases hk : k' = k
      · subst hk
        have hle : e ≤ now + ttl := hbound ⟨v', List.mem_cons_self _ _⟩
        refine ⟨(v', now + ttl), ?_, hle⟩
        simp [stepOp]
      · rcases hacc with ⟨p, hp, hep⟩
        refine ⟨p, ?_, hep⟩
        simp [stepOp, hk, hp]

/-! ### Claims C7 and C8 (AddrBook.put) -/

/-- C7 (amended): for every `put` call with a positive `ttl` and a nonempty
address list, every entry already stored in the book (in particular every
address already stored for the given log) is still present afterwards and its
expiration is at least what it was before the call: a mentioned address is
re-put with expiration `now + ttl` only when that extends it, an unmentioned
one is untouched.  (With `ttl ≤ 0` the mentioned addresses are deleted, and
the no-address refresh path rewrites every expiration to `now + ttl` even
when that shortens it — see the counterexample.) -/
theorem addrbook_put_ttl_monotone (now : Int) (ds : TTLDS) (id log : String)
    (ttl : Int) (addrs : List String) (k : KeyL) (v : String) (e : Int)
    (hpos : 0 < ttl) (hne : addrs ≠ [])
    (hstored : dsGet ds k = some (v, e)) :
    expGe (AddrBook.put now ds id log ttl addrs).1 k e = true := by
  have hnil : ¬ addrs.isEmpty = true := by
    simp [List.isEmpty_iff]
    exact hne
  unfold AddrBook.put
  rw [if_neg hnil]
  show expGe (ttlCommit now ttl ds
    (putLoop now ds (getKey id log) log ttl addrs addrs [] []).1) k e = true
  rw [putLoop_spec, List.nil_append]
  unfold ttlCommit
  have hfold : ∃ p, dsGet (commitBatch ds ((putOps now ttl ds (getKey id log) addrs).map
      (ttlOpVal now ttl))) k = some p ∧ e ≤ p.2 := by
    rw [dsGet_commit]
    apply foldl_stepOp_ge
    · intro op hopm
      rcases List.mem_map.mp hopm with ⟨op0, hop0, rfl⟩
      rcases putOps_mem hpos hop0 with ⟨a, ha, rfl, -⟩
      exact ⟨getKey id log ++ [a], a, rfl⟩
    · rintro ⟨v', hv'⟩
      rcases List.mem_map.mp hv' with ⟨op0, hop0, hmap⟩
      rcases putOps_mem hpos hop0 with ⟨a, ha, rfl, hbound⟩
      unfold ttlOpVal at hmap
      injection hmap with hk1 hk2
      rw [← hk1] at hstored
      have := hbound (v, e) hstored
      omega
    · exact ⟨(v, e), hstored, le_refl e⟩
  rcases hfold with ⟨p, hp, hep⟩
  unfold expGe
  rw [hp]
  simpa using hep

/-- Witness for C7: refreshing the known address `a` (stored with expiration
1000) at time 2000 with ttl 5 keeps it present with expiration at least 1000
(it is in fact extended to 2005). -/
theorem addrbook_put_ttl_monotone_witness :
    ((0 : Int) < 5 ∧ (["a"] : List String) ≠ [] ∧
      dsGet c7ds ["t", "l", "a"] = some ("a", 1000)) ∧
    expGe (AddrBook.put 2000 c7ds "t" "l" 5 ["a"]).1 ["t", "l", "a"] 1000 = true :=
  ⟨⟨by decide, by decide, by decide⟩,
    addrbook_put_ttl_monotone 2000 c7ds "t" "l" 5 ["a"] ["t", "l", "a"] "a" 1000
      (by decide) (by decide) (by decide)⟩

/-- Counterexample to C7 as stated: the address `a` is stored with expiration
1000; `put` with `ttl = 0` deletes it outright (not "still present"), and the
no-address refresh `put` with `ttl = 5` at time 0 rewrites its expiration down
from 1000 to 5 (shortened, not extended). -/
theorem addrbook_put_ttl_counterexample :
    dsGet c7ds ["t", "l", "a"] = some ("a", 1000) ∧
      dsGet (AddrBook.put 0 c7ds "t" "l" 0 ["a"]).1 ["t", "l", "a"] = none ∧
      dsGet (AddrBook.put 0 c7ds "t" "l" 5 []).1 ["t", "l", "a"] = some ("a", 5) := by
  decide

/-- C8: `put` emits a `newAddr` notification exactly when `ttl` is positive
and some address in the argument list has no key in the datastore yet; in
particular, when the notification fires, the previously-unseen address really
is added (its key is present after the call), and a `put` that only refreshes
already-known addresses emits nothing. -/
theorem addrbook_put_newAddr_iff (now : Int) (ds : TTLDS) (id log : String) (ttl : Int)
    (addrs : List String) :
    ((AddrBook.put now ds id log ttl addrs).2 ≠ [] ↔
      0 < ttl ∧ ∃ a ∈ addrs, dsHas ds (getKey id log ++ [a]) = false) ∧
    (∀ a ∈ addrs, 0 < ttl → dsHas ds (getKey id log ++ [a]) = false →
      dsHas (AddrBook.put now ds id log ttl addrs).1 (getKey id log ++ [a]) = true) := by
  constructor
  · rw [addrbook_put_events_eq]
    unfold putEvents
    by_cases h0 : ttl ≤ 0
    · rw [if_pos h0]
      constructor
      · intro hne
        exact absurd rfl hne
      · rintro ⟨hlt, -⟩
        exact absurd hlt (by omega)
    · rw [if_neg h0]
      constructor
      · intro hne
        refine ⟨by omega, ?_⟩
        by_contra hall
        push_neg at hall
        apply hne
        rw [List.map_eq_nil_iff, List.filter_eq_nil_iff]
        intro a ha
        have h1 := hall a ha
        simp only [Bool.not_eq_false] at h1
        simp [h1]
      · rintro ⟨-, a, ha, hfa⟩ hnil
        rw [List.map_eq_nil_iff, List.filter_eq_nil_iff] at hnil
        have h2 := hnil a ha
        simp [hfa] at h2
  · intro a ha hpos hfalse
    have hnil : ¬ addrs.isEmpty = true := by
      simp [List.isEmpty_iff]
      exact List.ne_nil_of_mem ha
    unfold AddrBook.put
    rw [if_neg hnil]
    show dsHas (ttlCommit now ttl ds
      (putLoop now ds (getKey id log) log ttl addrs addrs [] []).1)
      (getKey id log ++ [a]) = true
    rw [putLoop_spec, List.nil_append]
    unfold dsHas ttlCommit
    rw [dsGet_commit]
    apply foldl_stepOp_some
    · intro op hopm
      rcases List.mem_map.mp hopm with ⟨op0, hop0, rfl⟩
      rcases putOps_mem hpos hop0 with ⟨b, hb, rfl, -⟩
      exact ⟨getKey id log ++ [b], (b, now + ttl), rfl⟩
    · right
      refine ⟨(a, now + ttl), ?_⟩
      apply List.mem_map.mpr
      refine ⟨BatchOp.put (getKey id log ++ [a]) a, ?_, rfl⟩
      unfold putOps
      apply List.mem_filterMap.mpr
      refine ⟨a, ha, ?_⟩
      unfold putOp1
      rw [if_neg (by omega : ¬ ttl ≤ 0)]
      cases hg : dsGet ds (getKey id log ++ [a]) with
      | some p =>
        exfalso
        unfold dsHas at hfalse
        rw [hg] at hfalse
        simp at hfalse
      | none => rfl

/-- Witness for C8: putting `[a, b]` for log `l` where `a` is already stored
and `b` is unseen fires the notification and adds `b`'s key. -/
theorem addrbook_put_newAddr_iff_witness :
    (AddrBook.put 0 c7ds "t" "l" 5 ["a", "b"]).2 ≠ [] ∧
      dsHas (AddrBook.put 0 c7ds "t" "l" 5 ["a", "b"]).1 (getKey "t" "l" ++ ["b"]) = true :=
  ⟨(addrbook_put_newAddr_iff 0 c7ds "t" "l" 5 ["a", "b"]).1.mpr
      ⟨by decide, "b", by decide, by decide⟩,
    (addrbook_put_newAddr_iff 0 c7ds "t" "l" 5 ["a", "b"]).2 "b" (by decide) (by decide)
      (by decide)⟩

/-! ### Claims C9 and C10 (AddrBook constructor and logs) -/

/-- C9: the `opts` argument of the `AddrBook` constructor has no effect — the
`TTLDatastore` is always built with the literal `frequency = 20`, `ttl = 100`,
so two books over the same datastore are identical whatever options they were
given. -/
theorem addrbook_ctor_ignores_opts (ds : TTLDS) (o1 o2 : Option TTLOptions) :
    AddrBook.mkState ds o1 = AddrBook.mkState ds o2 ∧
      (AddrBook.mkState ds o1).ttlConfig = { ttl := 100, frequency := 20 } :=
  ⟨rfl, rfl⟩

theorem mem_foldl_addUnique (l : TTLDS) :
    ∀ (acc : List String) (x : String), x ∈ acc →
      x ∈ l.foldl (fun acc p => addUnique acc (logComponent p.1)) acc := by
  induction l with
  | nil => intro acc x hx; exact hx
  | cons q t ih =>
    intro acc x hx
    rw [List.foldl_cons]
    apply ih
    unfold addUnique
    by_cases hs : logComponent q.1 ∈ acc
    · rw [if_pos hs]; exact hx
    · rw [if_neg hs]; exact List.mem_append_left _ hx

theorem logComponent_mem_foldl (l : TTLDS) :
    ∀ (acc : List String) (p : KeyL × (String × Int)), p ∈ l →
      logComponent p.1 ∈ l.foldl (fun acc q => addUnique acc (logComponent q.1)) acc := by
  induction l with
  | nil => intro acc p hp; simp at hp
  | cons q t ih =>
    intro acc p hp
    rw [List.foldl_cons]
    rcases List.mem_cons.mp hp with heq | hrest
    · rw [heq]
      apply mem_foldl_addUnique
      unfold addUnique
      by_cases hs : logComponent q.1 ∈ acc
      · rw [if_pos hs]; exact hs
      · rw [if_neg hs]; exact List.mem_append_right _ (List.mem_singleton.mpr rfl)
    · exact ih _ p hrest

theorem mem_foldl_addUnique_src (l : TTLDS) :
    ∀ (acc : List String) (x : String),
      x ∈ l.foldl (fun acc q => addUnique acc (logComponent q.1)) acc →
      x ∈ acc ∨ ∃ p ∈ l, logComponent p.1 = x := by
  induction l with
  | nil => intro acc x hx; exact Or.inl hx
  | cons q t ih =>
    intro acc x hx
    rw [List.foldl_cons] at hx
    rcases ih _ x hx with hmem | ⟨p, hp, hlog⟩
    · unfold addUnique at hmem
      by_cases hs : logComponent q.1 ∈ acc
      · rw [if_pos hs] at hmem
        exact Or.inl hmem
      · rw [if_neg hs] at hmem
        rcases List.mem_append.mp hmem with h1 | h2
        · exact Or.inl h1
        · right
          exact ⟨q, List.mem_cons_self q t, (List.mem_singleton.mp h2).symm⟩
    · right
      exact ⟨p, List.mem_cons_of_mem q hp, hlog⟩

/-- C10: `AddrBook.logs(id)` ignores its thread-identifier argument — any two
ids give the same result — and the result is exactly the set of log
components (`key.reverse().parent().baseNamespace()`) of every entry in the
whole address book, not only of the entries under the given thread. -/
theorem addrbook_logs_ignores_thread (ds : TTLDS) (id1 id2 : String) :
    AddrBook.logs ds id1 = AddrBook.logs ds id2 ∧
      (∀ p ∈ ds, logComponent p.1 ∈ AddrBook.logs ds id1) ∧
      (∀ x ∈ AddrBook.logs ds id1, ∃ p ∈ ds, logComponent p.1 = x) := by
  refine ⟨rfl, ?_, ?_⟩
  · intro p hp
    exact logComponent_mem_foldl ds [] p hp
  · intro x hx
    rcases mem_foldl_addUnique_src ds [] x hx with h | h
    · simp at h
    · exact h

/-- Witness for C10: over a book holding entries for two different threads,
`logs "t1"` and `logs "zzz"` agree, and `logs "t1"` contains the log of the
entry stored under thread `t2`. -/
theorem addrbook_logs_ignores_thread_witness :
    AddrBook.logs c10ds "t1" = AddrBook.logs c10ds "zzz" ∧
      logComponent (["t2", "l2", "a2"] : KeyL) ∈ AddrBook.logs c10ds "t1" :=
  ⟨(addrbook_logs_ignores_thread c10ds "t1" "zzz").1,
    (addrbook_logs_ignores_thread c10ds "t1" "zzz").2.1 (["t2", "l2", "a2"], ("a2", 6))
      (by decide)⟩
